import Mathlib

/-!
Shallow embedding of the Metricologist metrics library.

Source files embedded here:
- lib/CloudWatchDriver.js : the batch encoder / dispatch driver (sendMetrics)
- lib/MetricCollector.js  : the aggregator (addMetrics, getMetrics, clearMetrics,
  stop, flush, the private key builder and the flush-timer bookkeeping)

Modelling conventions:
- JS numbers carried as metric samples are modelled as Int (the claims are about
  structure, ordering and the min/max/sum/count arithmetic, none of which depends
  on the numeric representation).
- A JS object used as an ordered string-keyed mapping (the dimensions object) is
  modelled as a List (String × String) in its insertion / traversal order; an
  absent (undefined) mapping is Option.none.
- A metric value is either a plain number or an array of numbers, exactly the two
  shapes the driver distinguishes with Array.isArray.
- Code that throws (assert, Object.keys on undefined, Array.reduce on an empty
  array without an initial value) is modelled with Except String, the string
  being the message of the thrown error.
- The ES6 Map held by the collector is modelled as an insertion-ordered
  association list with unique keys: Map.set on a fresh key appends at the end,
  mutation of an existing entry keeps its position, Map.values traverses in
  insertion order.
- The external transport (CloudWatch client putMetricData) is a parameter: a
  function from the 0-based index of the call to its outcome. Timer handles are
  reduced to an armed/disarmed flag, which is all the claims observe.
-/

namespace Metricologist

/-- A JS metric value as the driver sees it: a plain number or an array of
numbers (`Array.isArray` distinguishes exactly these two shapes). -/
inductive MVal where
  | scalar (v : Int)
  | samples (vs : List Int)
deriving Repr, DecidableEq

/-- A raw metric record as consumed by CloudWatchDriver.sendMetrics:
name, optional dimensions mapping, value, optional unit and timestamp. -/
structure RawMetric where
  name : String
  dimensions : Option (List (String × String))
  value : MVal
  unit : Option String
  timestamp : Option Nat
deriving Repr, DecidableEq

/-- One {Name, Value} pair of the wire Dimensions array. -/
structure WireDimension where
  Name : String
  Value : String
deriving Repr, DecidableEq

/-- The StatisticValues block of a wire entry. -/
structure StatisticValues where
  Maximum : Int
  Minimum : Int
  SampleCount : Nat
  Sum : Int
deriving Repr, DecidableEq

/-- One wire metric entry (one element of MetricData). Optional fields of the
JS object are Option; `none` means the field is absent from the object. -/
structure MetricDatum where
  MetricName : String
  Dimensions : List WireDimension
  Timestamp : Option Nat
  Value : Option Int
  StatisticValues : Option StatisticValues
  Unit : Option String
deriving Repr, DecidableEq

/-- One wire batch handed to the transport: {Namespace, MetricData}. -/
structure PutMetricsInput where
  Namespace : String
  MetricData : List MetricDatum
deriving Repr, DecidableEq

/-- JS `arr.reduce((a, b) => Math.max(a, b))`: no initial value, so the empty
array is an error; on v :: vs it folds max from v. -/
def reduceMax : List Int → Option Int
  | [] => none
  | v :: vs => some (vs.foldl max v)

/-- JS `arr.reduce((a, b) => Math.min(a, b))`. -/
def reduceMin : List Int → Option Int
  | [] => none
  | v :: vs => some (vs.foldl min v)

/-- JS `arr.reduce((a, b) => a + b)`. -/
def reduceSum : List Int → Option Int
  | [] => none
  | v :: vs => some (vs.foldl (· + ·) v)

/-- CloudWatchDriver.sendMetrics, inner record-to-wire-entry mapping:
MetricName from name; Dimensions built from the (possibly absent, then
defaulted-to-empty) dimensions mapping in traversal order; Timestamp and Unit
only when present; StatisticValues (and no Value) when the value is an array,
Value (and no StatisticValues) when it is a plain number. Reducing an empty
array without an initial value throws in JS, hence the error case. -/
def mkMetricDatum (m : RawMetric) : Except String MetricDatum :=
  let dims := (m.dimensions.getD []).map (fun p => WireDimension.mk p.1 p.2)
  match m.value with
  | .scalar v =>
      .ok { MetricName := m.name, Dimensions := dims, Timestamp := m.timestamp
            Value := some v, StatisticValues := none, Unit := m.unit }
  | .samples vs =>
      match reduceMax vs, reduceMin vs, reduceSum vs with
      | some mx, some mn, some s =>
          .ok { MetricName := m.name, Dimensions := dims, Timestamp := m.timestamp
                Value := none
                StatisticValues := some ⟨mx, mn, vs.length, s⟩
                Unit := m.unit }
      | _, _, _ => .error "Reduce of empty array with no initial value"

/-- JS Array.prototype.map with a callback that can throw: stops at the first
error, otherwise returns all results in order. -/
def mapExcept (f : α → Except ε β) : List α → Except ε (List β)
  | [] => .ok []
  | a :: as =>
      match f a with
      | .error e => .error e
      | .ok b =>
          match mapExcept f as with
          | .error e => .error e
          | .ok bs => .ok (b :: bs)

/-- METRIC_COUNT_LIMIT from CloudWatchDriver.js. -/
def METRIC_COUNT_LIMIT : Nat := 20

/-- The `chunk` npm package: split a list into consecutive chunks of at most n
elements, preserving order; the last chunk carries the remainder. -/
def chunkList (n : Nat) (l : List α) : List (List α) :=
  match l with
  | [] => []
  | a :: l' =>
      if h : n = 0 then []
      else
        have : ((a :: l').drop n).length < (a :: l').length := by
          simp [List.length_drop]
          omega
        (a :: l').take n :: chunkList n ((a :: l').drop n)
termination_by l.length

/-- A transport error value together with its `_logged` tag (the driver sets
`err._logged = true` before rethrowing). -/
structure TaggedError (ε : Type) where
  err : ε
  logged : Bool
deriving Repr, DecidableEq

/-- Why one sendMetrics call failed: the record-to-wire mapping threw
synchronously (before any transport call for that chunk), or the transport
rejected a chunk. -/
inductive SendError (ε : Type) where
  | mapFailed (msg : String)
  | transportFailed (e : TaggedError ε)
deriving Repr, DecidableEq

instance [DecidableEq ε] [DecidableEq α] : DecidableEq (Except ε α)
  | .error e₁, .error e₂ =>
      if h : e₁ = e₂ then .isTrue (by rw [h]) else .isFalse (by simp [h])
  | .error _, .ok _ => .isFalse (by simp)
  | .ok _, .error _ => .isFalse (by simp)
  | .ok a₁, .ok a₂ =>
      if h : a₁ = a₂ then .isTrue (by rw [h]) else .isFalse (by simp [h])

/-- Observable trace of one sendMetrics call: the batches actually handed to
the transport in order, the logger.error events (error with the offending
batch), and the overall promise outcome. -/
structure SendOutcome (ε : Type) where
  calls : List PutMetricsInput
  errorLogs : List (ε × PutMetricsInput)
  result : Except (SendError ε) Unit
deriving Repr, DecidableEq

/-- The chunk loop of CloudWatchDriver.sendMetrics: BPromise.map with
concurrency 1 processes chunks strictly in order and stops at the first
rejection. For each chunk: map records to wire entries (a throw here rejects
before the transport is contacted), assemble {Namespace, MetricData}, invoke
the transport; on transport failure log {err, metrics} at error level, tag the
error as logged and rethrow, aborting the remaining chunks. `i` is the 0-based
index of the next transport call. -/
def runChunks (ns : String) (transport : Nat → Except ε Unit) :
    Nat → List (List RawMetric) → SendOutcome ε
  | _, [] => { calls := [], errorLogs := [], result := .ok () }
  | i, c :: cs =>
      match mapExcept mkMetricDatum c with
      | .error msg => { calls := [], errorLogs := [], result := .error (.mapFailed msg) }
      | .ok data =>
          let batch : PutMetricsInput := { Namespace := ns, MetricData := data }
          match transport i with
          | .error e =>
              { calls := [batch]
                errorLogs := [(e, batch)]
                result := .error (.transportFailed ⟨e, true⟩) }
          | .ok _ =>
              let rest := runChunks ns transport (i + 1) cs
              { calls := batch :: rest.calls
                errorLogs := rest.errorLogs
                result := rest.result }

/-- CloudWatchDriver.sendMetrics on an already-list argument ([].concat of a
list is the list itself): chunk into groups of METRIC_COUNT_LIMIT and run the
sequential chunk loop. -/
def sendMetrics (ns : String) (transport : Nat → Except ε Unit)
    (rawMetrics : List RawMetric) : SendOutcome ε :=
  runChunks ns transport 0 (chunkList METRIC_COUNT_LIMIT rawMetrics)

/-! ## MetricCollector (lib/MetricCollector.js) -/

/-- One raw observation handed to MetricCollector.addMetrics: name, optional
dimensions mapping (insertion-ordered, unique keys), a numeric value, optional
units tag and timestamp. The collector never inspects the value beyond storing
it; numeric samples are modelled as Int. -/
structure Observation where
  name : String
  dimensions : Option (List (String × String))
  value : Int
  units : Option String
  timestamp : Option Nat
deriving Repr, DecidableEq

/-- An accumulated metric record inside the collector's map:
Object.assign({}, metricData, { value: [metricData.value] }) copies the
observation's fields and replaces value by a growable array of samples. -/
structure MetricRecord where
  name : String
  dimensions : Option (List (String × String))
  value : List Int
  units : Option String
  timestamp : Option Nat
deriving Repr, DecidableEq

/-- The accumulated record as the driver sees it when the collector flushes:
the same object, whose value is an array (so Array.isArray is true). The
collector stores the unit tag under `units`, a property the driver never
reads (it reads `unit`), hence unit := none at the driver boundary. -/
def MetricRecord.toRaw (r : MetricRecord) : RawMetric :=
  { name := r.name, dimensions := r.dimensions, value := .samples r.value
    unit := none, timestamp := r.timestamp }

/-- The collector's ES6 Map, as an insertion-ordered association list with
unique keys. -/
abbrev MetricMap := List (String × MetricRecord)

/-- MetricCollector state: auto flag, stopped flag, whether a flush timer is
armed (timer handles reduced to a flag), flush frequency, the namespace held
by the owned driver, and the map of accumulated records. -/
structure CollectorState where
  serviceNamespace : String
  auto : Bool
  stopped : Bool
  timerArmed : Bool
  flushFrequency : Nat
  metrics : MetricMap
deriving Repr, DecidableEq

/-- DEFAULT_FLUSH_FREQUENCY from MetricCollector.js. -/
def DEFAULT_FLUSH_FREQUENCY : Nat := 20000

/-- Constructor options. serviceNamespace is Option to model an absent field;
the empty string is falsy in JS and also fails the assert. flushFrequency is
Option Nat; `options.flushFrequency || 20000` maps 0 and absent to the
default. -/
structure CollectorOptions where
  serviceNamespace : Option String
  auto : Bool
  flushFrequency : Option Nat
deriving Repr, DecidableEq

/-- MetricCollector constructor: assert(options.serviceNamespace), then start
stopped iff not auto, arming the flush timer iff auto. -/
def mkCollector (opts : CollectorOptions) : Except String CollectorState :=
  match opts.serviceNamespace with
  | none => .error "missing options.serviceNamespace"
  | some ns =>
      if ns = "" then .error "missing options.serviceNamespace"
      else
        .ok { serviceNamespace := ns
              auto := opts.auto
              stopped := !opts.auto
              timerArmed := opts.auto
              flushFrequency :=
                match opts.flushFrequency with
                | none => DEFAULT_FLUSH_FREQUENCY
                | some 0 => DEFAULT_FLUSH_FREQUENCY
                | some (n + 1) => n + 1
              metrics := [] }

/-- MetricCollector._getMetricKey: Object.keys(metricData.dimensions) throws a
TypeError when dimensions is undefined (there is no defaulting here); otherwise
the key is the name followed by the dimension values in traversal order,
joined by a colon separator. -/
def getMetricKey (o : Observation) : Except String String :=
  match o.dimensions with
  | none => .error "Cannot convert undefined or null to object"
  | some dims =>
      .ok (o.name ++ ":" ++ String.intercalate ":" (dims.map Prod.snd))

/-- Map.has, via the association list. -/
def containsKey (m : MetricMap) (k : String) : Bool :=
  m.any (fun p => p.1 = k)

/-- metric.value.push(metricData.value) on the entry stored under k: the entry
keeps its position, only its value array grows at the end. -/
def pushValue (m : MetricMap) (k : String) (v : Int) : MetricMap :=
  match m with
  | [] => []
  | (k', r) :: rest =>
      if k' = k then (k', { r with value := r.value ++ [v] }) :: rest
      else (k', r) :: pushValue rest k v

/-- Object.assign({}, metricData, { value: [metricData.value] }): the record a
fresh key is seeded with. -/
def seedRecord (o : Observation) : MetricRecord :=
  { name := o.name, dimensions := o.dimensions, value := [o.value]
    units := o.units, timestamp := o.timestamp }

/-- One iteration of the forEach body of addMetrics, after the key has been
computed: push onto an existing record, or Map.set the seeded record (which
appends at the end in insertion order). -/
def addOne (m : MetricMap) (o : Observation) (k : String) : MetricMap :=
  if containsKey m k then pushValue m k o.value
  else m ++ [(k, seedRecord o)]

/-- The forEach loop of addMetrics. A throw from _getMetricKey aborts the loop
but keeps the mutations already made (JS exceptions do not roll back). -/
def addMetricsLoop : MetricMap → List Observation → MetricMap × Except String Unit
  | m, [] => (m, .ok ())
  | m, o :: os =>
      match getMetricKey o with
      | .error e => (m, .error e)
      | .ok k => addMetricsLoop (addOne m o k) os

/-- The argument of one addMetrics call: absent (undefined/null, a falsy value
failing the assert), a single observation, or an array of observations
([].concat coerces the first two forms to a list). -/
inductive AddArg where
  | absent
  | single (o : Observation)
  | list (os : List Observation)
deriving Repr, DecidableEq

/-- The observations an AddArg carries once coerced by [].concat. -/
def AddArg.obs : AddArg → List Observation
  | .absent => []
  | .single o => [o]
  | .list os => os

/-- MetricCollector.addMetrics on the metrics map: assert(metricsData) throws
only on a falsy argument (an empty array is truthy and passes), then the
forEach loop runs over the coerced list. -/
def addMetrics (m : MetricMap) (arg : AddArg) : MetricMap × Except String Unit :=
  match arg with
  | .absent => (m, .error "missing metricsData")
  | .single o => addMetricsLoop m [o]
  | .list os => addMetricsLoop m os

/-- A sequence of addMetrics calls against the same collector, stopping at the
first call that throws. -/
def runAddCalls : MetricMap → List AddArg → MetricMap × Except String Unit
  | m, [] => (m, .ok ())
  | m, a :: rest =>
      match addMetrics m a with
      | (m', .error e) => (m', .error e)
      | (m', .ok _) => runAddCalls m' rest

/-- MetricCollector.getMetrics: Array.from(map.values()), the records in map
insertion order, without clearing. -/
def getMetrics (s : CollectorState) : List MetricRecord :=
  s.metrics.map Prod.snd

/-- MetricCollector.clearMetrics. -/
def clearMetrics (s : CollectorState) : CollectorState :=
  { s with metrics := [] }

/-- The synchronous part of MetricCollector.flush: snapshot via getMetrics,
clear the map, rearm the timer iff auto and not stopped, and decide what (if
anything) is handed to the driver: none when the snapshot is empty. -/
def flushCore (s : CollectorState) : CollectorState × Option (List MetricRecord) :=
  let metricsData := getMetrics s
  let s₁ := clearMetrics s
  let s₂ := if s₁.auto && !s₁.stopped then { s₁ with timerArmed := true } else s₁
  if metricsData.length = 0 then (s₂, none)
  else (s₂, some metricsData)

/-- MetricCollector.flush run against a transport: the state after the
synchronous part, the promise outcome (BPromise.resolve() when the snapshot
was empty, otherwise the driver sendMetrics outcome on the snapshot), and the
records handed to the driver (none when it was not contacted). -/
def flushRun (s : CollectorState) (transport : Nat → Except ε Unit) :
    CollectorState × Except (SendError ε) Unit × Option (List MetricRecord) :=
  match flushCore s with
  | (s', none) => (s', .ok (), none)
  | (s', some data) =>
      (s', (sendMetrics s.serviceNamespace transport (data.map MetricRecord.toRaw)).result,
       some data)

/-- MetricCollector.stop run against a transport: a no-op resolving
immediately when already stopped; otherwise mark stopped, clearTimeout the
flush timer, and run one final flush, propagating its outcome. -/
def stopRun (s : CollectorState) (transport : Nat → Except ε Unit) :
    CollectorState × Except (SendError ε) Unit × Option (List MetricRecord) :=
  if s.stopped then (s, .ok (), none)
  else flushRun { s with stopped := true, timerArmed := false } transport

/-! ## Helper lemmas -/

lemma foldl_max_mem (v : Int) (vs : List Int) : vs.foldl max v ∈ v :: vs := by
  induction vs generalizing v with
  | nil => simp
  | cons w ws ih =>
      simp only [List.foldl_cons]
      rcases List.mem_cons.mp (ih (max v w)) with h | h
      · rcases max_choice v w with hm | hm
        · rw [h, hm]
          exact List.mem_cons_self _ _
        · rw [h, hm]
          exact List.mem_cons.mpr (Or.inr (List.mem_cons_self _ _))
      · exact List.mem_cons.mpr (Or.inr (List.mem_cons.mpr (Or.inr h)))

lemma le_foldl_max (v : Int) (vs : List Int) : ∀ x ∈ v :: vs, x ≤ vs.foldl max v := by
  induction vs generalizing v with
  | nil =>
      intro x hx
      simp at hx
      simp [hx]
  | cons w ws ih =>
      intro x hx
      simp only [List.foldl_cons]
      rcases List.mem_cons.mp hx with hxv | hx'
      · calc x = v := hxv
          _ ≤ max v w := le_max_left _ _
          _ ≤ ws.foldl max (max v w) := ih (max v w) _ (List.mem_cons_self _ _)
      · rcases List.mem_cons.mp hx' with hxw | hxw
        · calc x = w := hxw
            _ ≤ max v w := le_max_right _ _
            _ ≤ ws.foldl max (max v w) := ih (max v w) _ (List.mem_cons_self _ _)
        · exact ih (max v w) x (List.mem_cons.mpr (Or.inr hxw))

lemma foldl_min_mem (v : Int) (vs : List Int) : vs.foldl min v ∈ v :: vs := by
  induction vs generalizing v with
  | nil => simp
  | cons w ws ih =>
      simp only [List.foldl_cons]
      rcases List.mem_cons.mp (ih (min v w)) with h | h
      · rcases min_choice v w with hm | hm
        · rw [h, hm]
          exact List.mem_cons_self _ _
        · rw [h, hm]
          exact List.mem_cons.mpr (Or.inr (List.mem_cons_self _ _))
      · exact List.mem_cons.mpr (Or.inr (List.mem_cons.mpr (Or.inr h)))

lemma foldl_min_le (v : Int) (vs : List Int) : ∀ x ∈ v :: vs, vs.foldl min v ≤ x := by
  induction vs generalizing v with
  | nil =>
      intro x hx
      simp at hx
      simp [hx]
  | cons w ws ih =>
      intro x hx
      simp only [List.foldl_cons]
      rcases List.mem_cons.mp hx with hxv | hx'
      · calc ws.foldl min (min v w) ≤ min v w := ih (min v w) _ (List.mem_cons_self _ _)
          _ ≤ v := min_le_left _ _
          _ = x := hxv.symm
      · rcases List.mem_cons.mp hx' with hxw | hxw
        · calc ws.foldl min (min v w) ≤ min v w := ih (min v w) _ (List.mem_cons_self _ _)
            _ ≤ w := min_le_right _ _
            _ = x := hxw.symm
        · exact ih (min v w) x (List.mem_cons.mpr (Or.inr hxw))

lemma foldl_add_eq (v : Int) (vs : List Int) : vs.foldl (· + ·) v = v + vs.sum := by
  induction vs generalizing v with
  | nil => simp
  | cons w ws ih =>
      simp only [List.foldl_cons, List.sum_cons]
      rw [ih (v + w)]
      ring

lemma pushValue_keys (m : MetricMap) (k : String) (v : Int) :
    (pushValue m k v).map Prod.fst = m.map Prod.fst := by
  induction m with
  | nil => rfl
  | cons p rest ih =>
      obtain ⟨k', r⟩ := p
      by_cases h : k' = k
      · simp [pushValue, h]
      · simp [pushValue, h, ih]

/-- All observations delivered across a sequence of addMetrics calls, in
order, after the per-call [].concat coercion. -/
def argsObs (args : List AddArg) : List Observation :=
  (args.map AddArg.obs).flatten

lemma addMetricsLoop_single_entry (k : String) (r : MetricRecord)
    (obs : List Observation) (h : ∀ o ∈ obs, getMetricKey o = .ok k) :
    addMetricsLoop [(k, r)] obs =
      ([(k, { r with value := r.value ++ obs.map (fun o => o.value) })], .ok ()) := by
  induction obs generalizing r with
  | nil => simp [addMetricsLoop]
  | cons o os ih =>
      have hk := h o (List.mem_cons_self _ _)
      have hpush : addOne [(k, r)] o k = [(k, { r with value := r.value ++ [o.value] })] := by
        simp [addOne, containsKey, pushValue]
      simp only [addMetricsLoop, hk, hpush]
      rw [ih _ (fun x hx => h x (List.mem_cons.mpr (Or.inr hx)))]
      simp [List.append_assoc]

lemma addMetricsLoop_from_empty (o : Observation) (os : List Observation) (k : String)
    (h : ∀ x ∈ o :: os, getMetricKey x = .ok k) :
    addMetricsLoop [] (o :: os) =
      ([(k, { seedRecord o with value := (o :: os).map (fun x => x.value) })], .ok ()) := by
  have hk := h o (List.mem_cons_self _ _)
  have hseed : addOne [] o k = [(k, seedRecord o)] := by
    simp [addOne, containsKey]
  simp only [addMetricsLoop, hk, hseed]
  rw [addMetricsLoop_single_entry k _ os (fun x hx => h x (List.mem_cons.mpr (Or.inr hx)))]
  simp [seedRecord]

lemma addMetricsLoop_ok (m : MetricMap) (obs : List Observation)
    (h : ∀ o ∈ obs, ∃ k, getMetricKey o = .ok k) :
    (addMetricsLoop m obs).2 = .ok () := by
  induction obs generalizing m with
  | nil => rfl
  | cons o os ih =>
      obtain ⟨k, hk⟩ := h o (List.mem_cons_self _ _)
      simp only [addMetricsLoop, hk]
      exact ih _ (fun x hx => h x (List.mem_cons.mpr (Or.inr hx)))

lemma addMetricsLoop_append (m : MetricMap) (xs ys : List Observation)
    (h : ∀ o ∈ xs, ∃ k, getMetricKey o = .ok k) :
    addMetricsLoop m (xs ++ ys) = addMetricsLoop (addMetricsLoop m xs).1 ys := by
  induction xs generalizing m with
  | nil => simp [addMetricsLoop]
  | cons x xs ih =>
      obtain ⟨k, hk⟩ := h x (List.mem_cons_self _ _)
      simp only [List.cons_append, addMetricsLoop, hk]
      exact ih _ (fun o ho => h o (List.mem_cons.mpr (Or.inr ho)))

lemma runAddCalls_eq_loop (m : MetricMap) (args : List AddArg)
    (habs : ∀ a ∈ args, a ≠ .absent)
    (hkeys : ∀ o ∈ argsObs args, ∃ k, getMetricKey o = .ok k) :
    runAddCalls m args = addMetricsLoop m (argsObs args) := by
  induction args generalizing m with
  | nil => rfl
  | cons a rest ih =>
      have hobs : ∀ o ∈ a.obs, ∃ k, getMetricKey o = .ok k := by
        intro o ho
        apply hkeys o
        simp only [argsObs, List.map_cons, List.flatten_cons, List.mem_append]
        exact Or.inl ho
      have hma : addMetrics m a = addMetricsLoop m a.obs := by
        cases a with
        | absent => exact absurd rfl (habs _ (List.mem_cons_self _ _))
        | single o => rfl
        | list os => rfl
      have hok : (addMetricsLoop m a.obs).2 = .ok () := addMetricsLoop_ok _ _ hobs
      have hflat : argsObs (a :: rest) = a.obs ++ argsObs rest := by
        simp only [argsObs, List.map_cons, List.flatten_cons]
      rw [hflat, addMetricsLoop_append m a.obs (argsObs rest) hobs]
      rcases hAB : addMetricsLoop m a.obs with ⟨m', r⟩
      have hr : r = .ok () := by
        rw [hAB] at hok
        exact hok
      subst hr
      simp only [runAddCalls, hma, hAB]
      exact ih _ (fun x hx => habs x (List.mem_cons.mpr (Or.inr hx)))
        (fun o ho => hkeys o (by rw [hflat]; exact List.mem_append.mpr (Or.inr ho)))

/-! ## Chunking lemmas -/

lemma chunkList_nil (n : Nat) : chunkList n ([] : List α) = [] := by
  rw [chunkList]

lemma chunkList_cons (n : Nat) (hn : n ≠ 0) (a : α) (l : List α) :
    chunkList n (a :: l) = (a :: l).take n :: chunkList n ((a :: l).drop n) := by
  rw [chunkList]
  simp [hn]

lemma chunkList_flatten (n : Nat) (hn : n ≠ 0) : ∀ l : List α, (chunkList n l).flatten = l
  | [] => by
      rw [chunkList_nil]
      rfl
  | a :: l' => by
      rw [chunkList_cons n hn]
      simp only [List.flatten_cons]
      rw [chunkList_flatten n hn ((a :: l').drop n)]
      exact List.take_append_drop n (a :: l')
termination_by l => l.length
decreasing_by
  simp [List.length_drop]
  omega

lemma chunkList_get? (n : Nat) (hn : n ≠ 0) :
    ∀ (l : List α) (i : Nat), i < (chunkList n l).length →
      (chunkList n l).get? i = some ((l.drop (n * i)).take n)
  | [], i => by
      rw [chunkList_nil]
      intro h
      simp at h
  | a :: l', 0 => by
      rw [chunkList_cons n hn]
      intro _
      simp
  | a :: l', i + 1 => by
      rw [chunkList_cons n hn]
      intro h
      simp only [List.length_cons] at h
      have h' : i < (chunkList n ((a :: l').drop n)).length := by omega
      simp only [List.get?_cons_succ]
      rw [chunkList_get? n hn ((a :: l').drop n) i h', List.drop_drop]
      congr 3
      rw [Nat.mul_succ]
      omega
termination_by l i => i

lemma chunkList20_length : ∀ l : List α, (chunkList 20 l).length = (l.length + 19) / 20
  | [] => by
      rw [chunkList_nil]
      simp
  | a :: l' => by
      rw [chunkList_cons 20 (by omega)]
      simp only [List.length_cons]
      rw [chunkList20_length ((a :: l').drop 20)]
      simp only [List.length_drop, List.length_cons]
      omega
termination_by l => l.length
decreasing_by
  simp [List.length_drop]
  omega

/-! ## mapExcept lemmas -/

lemma mapExcept_length (f : α → Except ε β) :
    ∀ (xs : List α) (ys : List β), mapExcept f xs = .ok ys → ys.length = xs.length := by
  intro xs
  induction xs with
  | nil =>
      intro ys h
      simp only [mapExcept] at h
      cases h
      rfl
  | cons a as ih =>
      intro ys h
      simp only [mapExcept] at h
      cases hfa : f a with
      | error e => rw [hfa] at h; cases h
      | ok b =>
          rw [hfa] at h
          cases hma : mapExcept f as with
          | error e => rw [hma] at h; cases h
          | ok bs =>
              rw [hma] at h
              cases h
              simp [ih bs hma]

lemma mapExcept_take_drop (f : α → Except ε β) :
    ∀ (xs : List α) (ys : List β) (j : Nat), mapExcept f xs = .ok ys →
      mapExcept f (xs.take j) = .ok (ys.take j) ∧
      mapExcept f (xs.drop j) = .ok (ys.drop j) := by
  intro xs
  induction xs with
  | nil =>
      intro ys j h
      simp only [mapExcept] at h
      cases h
      simp [mapExcept]
  | cons a as ih =>
      intro ys j h
      simp only [mapExcept] at h
      cases hfa : f a with
      | error e => rw [hfa] at h; cases h
      | ok b =>
          rw [hfa] at h
          cases hma : mapExcept f as with
          | error e => rw [hma] at h; cases h
          | ok bs =>
              rw [hma] at h
              cases h
              cases j with
              | zero => exact ⟨rfl, by simp only [List.drop_zero, mapExcept, hfa, hma]⟩
              | succ j' =>
                  obtain ⟨h1, h2⟩ := ih bs j' hma
                  constructor
                  · simp only [List.take_succ_cons, mapExcept, hfa, h1]
                  · simpa using h2

lemma mapExcept_chunkList (f : α → Except ε β) (n : Nat) (hn : n ≠ 0) :
    ∀ (xs : List α) (ys : List β), mapExcept f xs = .ok ys →
      List.Forall₂ (fun c d => mapExcept f c = .ok d) (chunkList n xs) (chunkList n ys)
  | [], ys => by
      intro h
      simp only [mapExcept] at h
      cases h
      rw [chunkList_nil, chunkList_nil]
      constructor
  | a :: as, ys => by
      intro h
      obtain ⟨b, bs, rfl⟩ : ∃ b bs, ys = b :: bs := by
        have hl := mapExcept_length f (a :: as) ys h
        cases ys with
        | nil => simp at hl
        | cons b bs => exact ⟨b, bs, rfl⟩
      rw [chunkList_cons n hn a as, chunkList_cons n hn b bs]
      obtain ⟨h1, h2⟩ := mapExcept_take_drop f (a :: as) (b :: bs) n h
      exact List.Forall₂.cons h1
        (mapExcept_chunkList f n hn ((a :: as).drop n) ((b :: bs).drop n) h2)
termination_by xs => xs.length
decreasing_by
  simp [List.length_drop]
  omega

/-! ## runChunks characterizations -/

lemma runChunks_ok (ns : String) {ε : Type} (t : Nat → Except ε Unit)
    (ht : ∀ i, t i = .ok ()) (start : Nat)
    (chunks : List (List RawMetric)) (dss : List (List MetricDatum))
    (hf : List.Forall₂ (fun c d => mapExcept mkMetricDatum c = .ok d) chunks dss) :
    runChunks ns t start chunks =
      { calls := dss.map (fun d => ⟨ns, d⟩), errorLogs := [], result := .ok () } := by
  induction hf generalizing start with
  | nil => rfl
  | cons h1 hrest ih =>
      simp only [runChunks, h1, ht]
      rw [ih (start + 1)]
      rfl

lemma runChunks_failAt (ns : String) {ε : Type} (t : Nat → Except ε Unit) (e : ε) :
    ∀ (start i : Nat) (chunks : List (List RawMetric)) (dss : List (List MetricDatum)),
    List.Forall₂ (fun c d => mapExcept mkMetricDatum c = .ok d) chunks dss →
    i < chunks.length →
    (∀ j, j < i → t (start + j) = .ok ()) →
    t (start + i) = .error e →
    runChunks ns t start chunks =
      { calls := (dss.take (i + 1)).map (fun d => ⟨ns, d⟩)
        errorLogs := [(e, ⟨ns, dss.getD i []⟩)]
        result := .error (.transportFailed ⟨e, true⟩) } := by
  intro start i
  induction i generalizing start with
  | zero =>
      intro chunks dss hf hi _ hfail
      cases hf with
      | nil => simp at hi
      | cons h1 hrest =>
          rw [Nat.add_zero] at hfail
          simp only [runChunks, h1, hfail]
          rfl
  | succ i ih =>
      intro chunks dss hf hi hok hfail
      cases hf with
      | nil => simp at hi
      | cons h1 hrest =>
          have ht0 : t start = .ok () := by
            have := hok 0 (by omega)
            rwa [Nat.add_zero] at this
          simp only [runChunks, h1, ht0]
          rw [ih (start + 1) _ _ hrest (by simpa using hi)
            (fun j hj => by
              have := hok (j + 1) (by omega)
              rwa [show start + (j + 1) = start + 1 + j by omega] at this)
            (by rwa [show start + 1 + i = start + (i + 1) by omega])]
          rfl

/-- C1, the claim as stated is false on the code. An accumulated record's
value is always an array; the driver branches on Array.isArray, not on the
sample count, so a record whose value sequence has exactly one element (here
[5]) is emitted with StatisticValues of SampleCount 1 and no Value field,
where the claim demands Value = 5 and no StatisticValues. -/
theorem claim1_counterexample :
    (MetricRecord.mk "m" (some []) [5] none none).value.length = 1 ∧
    mkMetricDatum (MetricRecord.mk "m" (some []) [5] none none).toRaw =
      .ok { MetricName := "m", Dimensions := [], Timestamp := none, Value := none
            StatisticValues := some ⟨5, 5, 1, 5⟩, Unit := none } := by
  exact ⟨rfl, rfl⟩

/-- C1 (amended): for every accumulated record handed to the driver (value a
nonempty array of k samples, k = 1 included) the wire entry has no Value field
and StatisticValues = {Maximum, Minimum, SampleCount = k, Sum} over the
samples; a Value field with no StatisticValues is emitted exactly for a
non-array scalar value, which accumulated records never carry. -/
theorem claim1_amended_wire_shape (r : MetricRecord) (m : RawMetric) (v : Int)
    (hr : r.value ≠ []) (hm : m.value = .scalar v) :
    (∃ d sv, mkMetricDatum r.toRaw = .ok d ∧ d.Value = none ∧
      d.StatisticValues = some sv ∧
      sv.SampleCount = r.value.length ∧ sv.Sum = r.value.sum ∧
      sv.Maximum ∈ r.value ∧ (∀ x ∈ r.value, x ≤ sv.Maximum) ∧
      sv.Minimum ∈ r.value ∧ (∀ x ∈ r.value, sv.Minimum ≤ x)) ∧
    (∃ d, mkMetricDatum m = .ok d ∧ d.Value = some v ∧ d.StatisticValues = none) := by
  constructor
  · obtain ⟨w, ws, hval⟩ : ∃ w ws, r.value = w :: ws := by
      cases hv : r.value with
      | nil => exact absurd hv hr
      | cons w ws => exact ⟨w, ws, rfl⟩
    have hmk : mkMetricDatum r.toRaw = .ok
        { MetricName := r.name
          Dimensions := (r.dimensions.getD []).map (fun p => WireDimension.mk p.1 p.2)
          Timestamp := r.timestamp, Value := none
          StatisticValues := some ⟨ws.foldl max w, ws.foldl min w, (w :: ws).length, w + ws.sum⟩
          Unit := none } := by
      simp only [mkMetricDatum, MetricRecord.toRaw, hval, reduceMax, reduceMin, reduceSum,
        foldl_add_eq]
    refine ⟨_, _, hmk, rfl, rfl, ?_, ?_, ?_, ?_, ?_, ?_⟩
    · rw [hval]
    · rw [hval, List.sum_cons]
    · rw [hval]
      exact foldl_max_mem w ws
    · intro x hx
      rw [hval] at hx
      exact le_foldl_max w ws x hx
    · rw [hval]
      exact foldl_min_mem w ws
    · intro x hx
      rw [hval] at hx
      exact foldl_min_le w ws x hx
  · refine ⟨
      { MetricName := m.name
        Dimensions := (m.dimensions.getD []).map (fun p => WireDimension.mk p.1 p.2)
        Timestamp := m.timestamp, Value := some v, StatisticValues := none
        Unit := m.unit }, ?_, rfl, rfl⟩
    simp only [mkMetricDatum, hm]

/-- Witness for claim1_amended_wire_shape at a concrete one-sample record and
a concrete scalar raw metric. -/
theorem claim1_amended_wire_shape_witness :
    (∃ d sv, mkMetricDatum (MetricRecord.mk "m" (some []) [5] none none).toRaw = .ok d ∧
      d.Value = none ∧ d.StatisticValues = some sv ∧
      sv.SampleCount = (MetricRecord.mk "m" (some []) [5] none none).value.length ∧
      sv.Sum = (MetricRecord.mk "m" (some []) [5] none none).value.sum ∧
      sv.Maximum ∈ (MetricRecord.mk "m" (some []) [5] none none).value ∧
      (∀ x ∈ (MetricRecord.mk "m" (some []) [5] none none).value, x ≤ sv.Maximum) ∧
      sv.Minimum ∈ (MetricRecord.mk "m" (some []) [5] none none).value ∧
      (∀ x ∈ (MetricRecord.mk "m" (some []) [5] none none).value, sv.Minimum ≤ x)) ∧
    (∃ d, mkMetricDatum (RawMetric.mk "m" none (.scalar 7) none none) = .ok d ∧
      d.Value = some 7 ∧ d.StatisticValues = none) :=
  claim1_amended_wire_shape (MetricRecord.mk "m" (some []) [5] none none)
    (RawMetric.mk "m" none (.scalar 7) none none) 7 (by decide) rfl

/-- C4: flushing a collector whose accumulated-metrics map is empty resolves
successfully and never contacts the transport. -/
theorem claim4_flush_empty_no_transport (s : CollectorState) {ε : Type}
    (t : Nat → Except ε Unit) (h : s.metrics = []) :
    (flushRun s t).2.1 = .ok () ∧ (flushRun s t).2.2 = none := by
  simp [flushRun, flushCore, getMetrics, clearMetrics, h]

/-- Witness for claim4_flush_empty_no_transport on a freshly constructed
collector state. -/
theorem claim4_flush_empty_no_transport_witness :
    (flushRun (CollectorState.mk "test" false true false 20000 [])
        (fun _ => (.ok () : Except String Unit))).2.1 = .ok () ∧
    (flushRun (CollectorState.mk "test" false true false 20000 [])
        (fun _ => (.ok () : Except String Unit))).2.2 = none :=
  claim4_flush_empty_no_transport _ _ rfl

/-- C5: flush clears the accumulated-metrics map before the transport call
begins: after any flush the map is empty, and both the post-flush state and
the record set handed to the transport are independent of the transport's
outcome (a failed flush leaves the map already cleared; nothing is requeued). -/
theorem claim5_flush_clears_before_transport (s : CollectorState) {ε₁ ε₂ : Type}
    (t₁ : Nat → Except ε₁ Unit) (t₂ : Nat → Except ε₂ Unit) :
    ((flushRun s t₁).1).metrics = [] ∧
    (flushRun s t₁).1 = (flushRun s t₂).1 ∧
    (flushRun s t₁).2.2 = (flushRun s t₂).2.2 := by
  by_cases h : (getMetrics s).length = 0
  · simp [flushRun, flushCore, clearMetrics, h]
    split <;> simp
  · simp [flushRun, flushCore, clearMetrics, h]
    split <;> simp

/-- C6: stop on an already-stopped collector is an immediate no-op (no flush,
no transport, success); on a running collector it marks stopped, disarms the
timer and performs exactly one final flush whose outcome it propagates; and a
collector constructed with auto = false starts stopped, so two consecutive
stops never hand anything to the transport. -/
theorem claim6_stop_idempotent (s : CollectorState) {ε : Type}
    (t t' : Nat → Except ε Unit) :
    (s.stopped = true → stopRun s t = (s, .ok (), none)) ∧
    (s.stopped = false →
      stopRun s t = flushRun { s with stopped := true, timerArmed := false } t) ∧
    (∀ opts : CollectorOptions, opts.auto = false → mkCollector opts = .ok s →
      stopRun s t = (s, .ok (), none) ∧
      stopRun (stopRun s t).1 t' = ((stopRun s t).1, .ok (), none)) := by
  refine ⟨?_, ?_, ?_⟩
  · intro h
    simp [stopRun, h]
  · intro h
    simp [stopRun, h]
  · intro opts hauto hmk
    have hstop : s.stopped = true := by
      cases hns : opts.serviceNamespace with
      | none => simp [mkCollector, hns] at hmk
      | some ns =>
          by_cases hempty : ns = ""
          · simp [mkCollector, hns, hempty] at hmk
          · simp [mkCollector, hns, hempty] at hmk
            rw [← hmk]
            simp [hauto]
    have h1 : stopRun s t = (s, .ok (), none) := by simp [stopRun, hstop]
    refine ⟨h1, ?_⟩
    rw [h1]
    simp [stopRun, hstop]

/-- Witness for claim6_stop_idempotent on a concrete auto = false collector. -/
theorem claim6_stop_idempotent_witness :
    ((CollectorState.mk "test" false true false 20000 []).stopped = true →
      stopRun (CollectorState.mk "test" false true false 20000 [])
        (fun _ => (.ok () : Except String Unit)) =
        (CollectorState.mk "test" false true false 20000 [], .ok (), none)) ∧
    ((CollectorState.mk "test" false true false 20000 []).stopped = false →
      stopRun (CollectorState.mk "test" false true false 20000 [])
        (fun _ => (.ok () : Except String Unit)) =
        flushRun { CollectorState.mk "test" false true false 20000 [] with
          stopped := true, timerArmed := false } (fun _ => .ok ())) ∧
    (∀ opts : CollectorOptions, opts.auto = false →
      mkCollector opts = .ok (CollectorState.mk "test" false true false 20000 []) →
      stopRun (CollectorState.mk "test" false true false 20000 [])
          (fun _ => (.ok () : Except String Unit)) =
        (CollectorState.mk "test" false true false 20000 [], .ok (), none) ∧
      stopRun (stopRun (CollectorState.mk "test" false true false 20000 [])
            (fun _ => (.ok () : Except String Unit))).1
          (fun _ => (.ok () : Except String Unit)) =
        ((stopRun (CollectorState.mk "test" false true false 20000 [])
            (fun _ => (.ok () : Except String Unit))).1, .ok (), none)) :=
  claim6_stop_idempotent _ _ _

/-- C7, the claim as stated is false on the code: an empty sequence passed to
addMetrics is truthy in JS, passes the assert, and succeeds as a no-op instead
of raising a validation error. -/
theorem claim7_counterexample :
    addMetrics [] (.list []) = ([], .ok ()) := rfl

/-- C7 (amended): addMetrics raises its validation error synchronously,
leaving the map unchanged, exactly when its argument is absent (falsy); an
empty sequence passes the assert and succeeds without touching the map; and
construction fails with a validation error when serviceNamespace is missing. -/
theorem claim7_amended_validation (m : MetricMap) (opts : CollectorOptions) :
    addMetrics m .absent = (m, .error "missing metricsData") ∧
    addMetrics m (.list []) = (m, .ok ()) ∧
    (opts.serviceNamespace = none →
      mkCollector opts = .error "missing options.serviceNamespace") := by
  refine ⟨rfl, rfl, ?_⟩
  intro h
  simp [mkCollector, h]

/-- Witness for claim7_amended_validation on a concrete map and options. -/
theorem claim7_amended_validation_witness :
    addMetrics [] .absent = ([], .error "missing metricsData") ∧
    addMetrics [] (.list []) = ([], .ok ()) ∧
    ((CollectorOptions.mk none false none).serviceNamespace = none →
      mkCollector (CollectorOptions.mk none false none) =
        .error "missing options.serviceNamespace") :=
  claim7_amended_validation [] (CollectorOptions.mk none false none)

/-- C8 is right about the intended behavior and the code is wrong: the spec
(and the driver, which guards with a default) treat an absent dimensions
mapping as empty, but _getMetricKey calls Object.keys directly on it, so an
observation without dimensions makes the key builder, and hence addMetrics,
throw a TypeError instead of succeeding. -/
theorem claim8_missing_dimensions_throws :
    getMetricKey (Observation.mk "eventCount" none 1 none none) =
      .error "Cannot convert undefined or null to object" ∧
    addMetrics [] (.single (Observation.mk "eventCount" none 1 none none)) =
      ([], .error "Cannot convert undefined or null to object") :=
  ⟨rfl, rfl⟩

/-- C10: getMetrics returns records in key first-insertion order: one
addMetrics step on a key already in the map leaves the key sequence (hence
every record's position) unchanged, and a fresh key is appended at the end. -/
theorem claim10_insertion_order (m : MetricMap) (o : Observation) (k : String)
    (h : getMetricKey o = .ok k) :
    ((addMetrics m (.single o)).1).map Prod.fst =
      (if containsKey m k then m.map Prod.fst else m.map Prod.fst ++ [k]) := by
  simp only [addMetrics, addMetricsLoop, h, addOne]
  by_cases hc : containsKey m k
  · simp [hc, pushValue_keys]
  · simp [hc]

/-- Witness for claim10_insertion_order: merging into the first of two keys
keeps the key order, as does appending a fresh key. -/
theorem claim10_insertion_order_witness :
    ((addMetrics [("m:x", MetricRecord.mk "m" (some [("a", "x")]) [1] none none)]
        (.single (Observation.mk "m" (some [("a", "x")]) 2 none none))).1).map Prod.fst =
      (if containsKey [("m:x", MetricRecord.mk "m" (some [("a", "x")]) [1] none none)] "m:x"
       then [("m:x", MetricRecord.mk "m" (some [("a", "x")]) [1] none none)].map Prod.fst
       else [("m:x", MetricRecord.mk "m" (some [("a", "x")]) [1] none none)].map Prod.fst
         ++ ["m:x"]) :=
  claim10_insertion_order _ _ _ rfl

/-- C2: a sequence of addMetrics calls whose observations all share one name
and identical dimension-value sequences (whatever their dimension key sets,
units or timestamps) accumulates exactly one record, whose value sequence is
the observations' values in arrival order, one per observation merged. -/
theorem claim2_merge_single_record (args : List AddArg) (nm : String) (dv : List String)
    (hne : argsObs args ≠ [])
    (habs : ∀ a ∈ args, a ≠ .absent)
    (hshare : ∀ o ∈ argsObs args, o.name = nm ∧
      o.dimensions.map (fun d => d.map Prod.snd) = some dv) :
    ∃ k r, runAddCalls [] args = ([(k, r)], .ok ()) ∧
      r.value = (argsObs args).map (fun o => o.value) ∧
      r.value.length = (argsObs args).length := by
  have hkey : ∀ o ∈ argsObs args,
      getMetricKey o = .ok (nm ++ ":" ++ String.intercalate ":" dv) := by
    intro o ho
    obtain ⟨hn, hd⟩ := hshare o ho
    cases hdo : o.dimensions with
    | none =>
        rw [hdo] at hd
        simp at hd
    | some dims =>
        rw [hdo] at hd
        simp only [Option.map_some'] at hd
        have hd' := Option.some.inj hd
        simp [getMetricKey, hdo, hn, hd']
  rw [runAddCalls_eq_loop [] args habs (fun o ho => ⟨_, hkey o ho⟩)]
  obtain ⟨o, os, hobs⟩ : ∃ o os, argsObs args = o :: os := by
    cases h : argsObs args with
    | nil => exact absurd h hne
    | cons o os => exact ⟨o, os, rfl⟩
  rw [hobs]
  rw [addMetricsLoop_from_empty o os _ (fun x hx => hkey x (hobs ▸ hx))]
  refine ⟨_, _, rfl, rfl, ?_⟩
  simp

/-- Witness for claim2_merge_single_record: two single-observation calls with
the same name and the same dimension value under different dimension names
merge into one record carrying both values in order. -/
theorem claim2_merge_single_record_witness :
    ∃ k r, runAddCalls []
        [AddArg.single (Observation.mk "m" (some [("a", "x")]) 1 none none),
         AddArg.single (Observation.mk "m" (some [("b", "x")]) 5 none none)] =
      ([(k, r)], .ok ()) ∧
      r.value = (argsObs
        [AddArg.single (Observation.mk "m" (some [("a", "x")]) 1 none none),
         AddArg.single (Observation.mk "m" (some [("b", "x")]) 5 none none)]).map
          (fun o => o.value) ∧
      r.value.length = (argsObs
        [AddArg.single (Observation.mk "m" (some [("a", "x")]) 1 none none),
         AddArg.single (Observation.mk "m" (some [("b", "x")]) 5 none none)]).length :=
  claim2_merge_single_record _ "m" ["x"] (by decide) (by decide) (by decide)

/-- C3: on N > 20 well-formed records with an always-succeeding transport,
sendMetrics issues exactly ceil(N/20) transport calls; each of the first
floor(N/20) carries exactly 20 wire entries, the last carries the remainder
when 20 does not divide N, and the concatenation of all batches is exactly
the in-order encoding of the input (nothing omitted, duplicated or
reordered). -/
theorem claim3_chunking {ε : Type} (recs : List RawMetric) (ds : List MetricDatum)
    (ns : String) (t : Nat → Except ε Unit)
    (hN : 20 < recs.length)
    (henc : mapExcept mkMetricDatum recs = .ok ds)
    (ht : ∀ i, t i = .ok ()) :
    (sendMetrics ns t recs).calls.length = (recs.length + 19) / 20 ∧
    (∀ i, i < recs.length / 20 →
      ((sendMetrics ns t recs).calls.map (fun b => b.MetricData.length)).get? i
        = some 20) ∧
    (recs.length % 20 ≠ 0 →
      ((sendMetrics ns t recs).calls.map (fun b => b.MetricData.length)).get?
        (recs.length / 20) = some (recs.length % 20)) ∧
    ((sendMetrics ns t recs).calls.map (fun b => b.MetricData)).flatten = ds ∧
    (sendMetrics ns t recs).result = .ok () := by
  have hlen : ds.length = recs.length := mapExcept_length _ recs ds henc
  have hf := mapExcept_chunkList mkMetricDatum 20 (by omega) recs ds henc
  have hrun : sendMetrics ns t recs =
      { calls := (chunkList 20 ds).map (fun d => ⟨ns, d⟩), errorLogs := []
        result := .ok () } :=
    runChunks_ok ns t ht 0 _ _ hf
  rw [hrun]
  have hchlen : (chunkList 20 ds).length = (ds.length + 19) / 20 := chunkList20_length ds
  refine ⟨?_, ?_, ?_, ?_, rfl⟩
  · simp [hchlen, hlen]
  · intro i hi
    have hilt : i < (chunkList 20 ds).length := by
      rw [hchlen, hlen]
      omega
    have hget := chunkList_get? 20 (by omega) ds i hilt
    rw [List.get?_map, List.get?_map, hget]
    simp only [Option.map_some', List.length_take, List.length_drop, Option.some.injEq]
    rw [hlen]
    omega
  · intro hr
    have hilt : recs.length / 20 < (chunkList 20 ds).length := by
      rw [hchlen, hlen]
      omega
    have hget := chunkList_get? 20 (by omega) ds (recs.length / 20) hilt
    rw [List.get?_map, List.get?_map, hget]
    simp only [Option.map_some', List.length_take, List.length_drop, Option.some.injEq]
    rw [hlen]
    omega
  · have hcomp : ((fun b => b.MetricData) ∘
        fun d => ({ Namespace := ns, MetricData := d } : PutMetricsInput)) = id := rfl
    rw [List.map_map, hcomp, List.map_id]
    exact chunkList_flatten 20 (by omega) ds

/-- Witness for claim3_chunking: 21 records make exactly 2 transport calls. -/
theorem claim3_chunking_witness :
    (sendMetrics "test" (fun _ => (.ok () : Except String Unit))
      (List.replicate 21 (RawMetric.mk "m" (some []) (.scalar 1) none none))).calls.length
      = 2 := by
  have h := claim3_chunking
    (List.replicate 21 (RawMetric.mk "m" (some []) (.scalar 1) none none))
    (List.replicate 21 (MetricDatum.mk "m" [] none (some 1) none none))
    "test" (fun _ => (.ok () : Except String Unit)) (by simp) (by rfl) (fun i => rfl)
  rw [h.1]
  simp

/-- C9: if the transport rejects the chunk at index i (after accepting the
earlier ones), sendMetrics logs the failure once at error level with the
offending batch, tags the error value as already logged, propagates that same
failure as its own outcome, and submits no chunk beyond i. -/
theorem claim9_transport_failfast {ε : Type} (recs : List RawMetric)
    (ds : List MetricDatum) (ns : String) (t : Nat → Except ε Unit) (e : ε) (i : Nat)
    (henc : mapExcept mkMetricDatum recs = .ok ds)
    (hi : i < (chunkList 20 recs).length)
    (hok : ∀ j, j < i → t j = .ok ())
    (hfail : t i = .error e) :
    (sendMetrics ns t recs).result = .error (.transportFailed ⟨e, true⟩) ∧
    (sendMetrics ns t recs).errorLogs = [(e, ⟨ns, (chunkList 20 ds).getD i []⟩)] ∧
    (sendMetrics ns t recs).calls =
      ((chunkList 20 ds).take (i + 1)).map (fun d => ⟨ns, d⟩) ∧
    (sendMetrics ns t recs).calls.length = i + 1 := by
  have hf := mapExcept_chunkList mkMetricDatum 20 (by omega) recs ds henc
  have hrun : sendMetrics ns t recs =
      { calls := ((chunkList 20 ds).take (i + 1)).map (fun d => ⟨ns, d⟩)
        errorLogs := [(e, ⟨ns, (chunkList 20 ds).getD i []⟩)]
        result := .error (.transportFailed ⟨e, true⟩) } :=
    runChunks_failAt ns t e 0 i _ _ hf hi
      (fun j hj => by simpa using hok j hj) (by simpa using hfail)
  rw [hrun]
  refine ⟨rfl, rfl, rfl, ?_⟩
  have hleneq : (chunkList 20 recs).length = (chunkList 20 ds).length :=
    List.Forall₂.length_eq hf
  simp only [List.length_map, List.length_take]
  omega

/-- Witness for claim9_transport_failfast: with 21 records (2 chunks) and a
transport that accepts the first call and rejects the second, the failure is
logged once, tagged, propagated, and only 2 calls were made. -/
theorem claim9_transport_failfast_witness :
    (sendMetrics "test"
        (fun j => if j = 0 then (.ok () : Except String Unit) else .error "boom")
        (List.replicate 21 (RawMetric.mk "m" (some []) (.scalar 1) none none))).result
      = .error (.transportFailed ⟨"boom", true⟩) ∧
    (sendMetrics "test"
        (fun j => if j = 0 then (.ok () : Except String Unit) else .error "boom")
        (List.replicate 21 (RawMetric.mk "m" (some []) (.scalar 1) none none))).calls.length
      = 2 := by
  have h := claim9_transport_failfast
    (List.replicate 21 (RawMetric.mk "m" (some []) (.scalar 1) none none))
    (List.replicate 21 (MetricDatum.mk "m" [] none (some 1) none none))
    "test" (fun j => if j = 0 then .ok () else .error "boom") "boom" 1
    (by rfl)
    (by simp [chunkList20_length])
    (fun j hj => by
      have hj0 : j = 0 := by omega
      subst hj0
      rfl)
    (by rfl)
  exact ⟨h.1, h.2.2.2⟩

end Metricologist
